import Mathlib

/-!
Verification of the Matterverse controller core against its specification.

Each section shallowly embeds one part of the Python source
(`src/matterverse/...`) as executable Lean definitions and proves or
refutes the corresponding specification claims.  Machine-level effects
(SQLite statements, subprocess spawns, asyncio scheduling) are made
explicit: tables become lists of rows, exceptions become `Except`,
task interleaving becomes an explicit step relation.
-/

/-! ### Device Registry (`database_manager.py`, class `Database`)

The `Attribute` table has primary key `(NodeID, Endpoint, Cluster,
Attribute)` and payload columns `Type` and `Value` (`Value` is NULL
until the first successful read).  The `Device` table has primary key
`(NodeID, Endpoint)` with payload `DeviceType` and `TopicID`.
-/

namespace Registry

structure AttrKey where
  node : Int
  endpoint : Int
  cluster : String
  attrName : String
deriving DecidableEq, Repr

structure AttrRow where
  key : AttrKey
  ty : String
  value : Option String
deriving DecidableEq, Repr

/-- The `SELECT ... WHERE NodeID = ? AND Endpoint = ? AND Cluster = ? AND
Attribute = ?` lookup both `create_attribute_entry` and `update_attribute`
begin with. -/
def findRow : List AttrRow → AttrKey → Option AttrRow
  | [], _ => none
  | r :: rest, k => if r.key = k then some r else findRow rest k

/-- `Database.create_attribute_entry` (database_manager.py:565-612):
if the row exists, return `True` and perform no write; otherwise insert a
new row with `Value = NULL` and `Type` resolved from the data model
(`get_attribute_type_by_name`), falling back to `"unknown"` when no data
model is attached. -/
def create_attribute_entry (dataModel : Option (String → String → String))
    (db : List AttrRow) (k : AttrKey) : List AttrRow × Bool :=
  match findRow db k with
  | some _ => (db, true)
  | none =>
      let attrType :=
        match dataModel with
        | some f => f k.cluster k.attrName
        | none => "unknown"
      (db ++ [{ key := k, ty := attrType, value := none }], true)

/-- The transaction stage of `Database.update_attribute`
(database_manager.py:324-349): after the path has been resolved, look the
row up; if it exists run `UPDATE Attribute SET Value = ? WHERE ...`
(only the `Value` column is written); if it does not exist, return `True`
without touching the database. -/
def update_attribute_tx (db : List AttrRow) (k : AttrKey) (v : String) :
    List AttrRow × Bool :=
  match findRow db k with
  | some _ =>
      (db.map (fun r => if r.key = k then { r with value := some v } else r), true)
  | none => (db, true)

structure DeviceRow where
  nodeID : Int
  endpoint : Int
  deviceType : Int
  topicID : String
deriving DecidableEq, Repr

/-- `SELECT MAX(NodeID) FROM Device`: `NULL` (`none`) on an empty table. -/
def maxNodeID : List DeviceRow → Option Int
  | [] => none
  | r :: rest =>
      match maxNodeID rest with
      | none => some r.nodeID
      | some m => some (max r.nodeID m)

/-- `Database.get_new_node_id` (database_manager.py:521-536): the SQL MAX
plus one, or `1` when the table is empty. -/
def get_new_node_id (devices : List DeviceRow) : Int :=
  match maxNodeID devices with
  | some m => m + 1
  | none => 1

theorem mem_le_maxNodeID (devices : List DeviceRow) (r : DeviceRow)
    (h : r ∈ devices) : ∃ m, maxNodeID devices = some m ∧ r.nodeID ≤ m := by
  induction devices with
  | nil => cases h
  | cons d rest ih =>
      rcases List.mem_cons.mp h with h0 | h1
      · subst h0
        cases hrest : maxNodeID rest with
        | none => exact ⟨r.nodeID, by simp [maxNodeID, hrest]⟩
        | some m => exact ⟨max r.nodeID m, by simp [maxNodeID, hrest], le_max_left _ _⟩
      · rcases ih h1 with ⟨m, hm, hle⟩
        cases d with
        | mk dn de dt dtop =>
            exact ⟨max dn m, by simp [maxNodeID, hm],
              le_trans hle (le_max_right _ _)⟩

end Registry

/-- Claim C7: `get_new_node_id` returns `max(NodeID) + 1` over the Device
table (or `1` when the table is empty), hence a value strictly greater
than every `NodeID` currently stored in the Device table. -/
theorem c7_new_node_id_strictly_greater :
    Registry.get_new_node_id [] = 1 ∧
    (∀ (devices : List Registry.DeviceRow) (m : Int),
      Registry.maxNodeID devices = some m →
      Registry.get_new_node_id devices = m + 1) ∧
    (∀ (devices : List Registry.DeviceRow) (r : Registry.DeviceRow),
      r ∈ devices → r.nodeID < Registry.get_new_node_id devices) := by
  refine ⟨rfl, ?_, ?_⟩
  · intro devices m hm
    simp [Registry.get_new_node_id, hm]
  · intro devices r hr
    rcases Registry.mem_le_maxNodeID devices r hr with ⟨m, hm, hle⟩
    simp only [Registry.get_new_node_id, hm]
    omega

/-- Witness for C7 at a concrete Device table. -/
theorem c7_new_node_id_witness :
    Registry.maxNodeID [⟨3, 1, 257, "t3"⟩, ⟨1, 1, 257, "t1"⟩] = some 3 ∧
    Registry.get_new_node_id [⟨3, 1, 257, "t3"⟩, ⟨1, 1, 257, "t1"⟩] = 3 + 1 ∧
    (⟨3, 1, 257, "t3"⟩ : Registry.DeviceRow).nodeID <
      Registry.get_new_node_id [⟨3, 1, 257, "t3"⟩, ⟨1, 1, 257, "t1"⟩] := by
  exact ⟨by decide, c7_new_node_id_strictly_greater.2.1 _ 3 (by decide),
    c7_new_node_id_strictly_greater.2.2 _ _ (by decide)⟩

/-- Claim C6: `create_attribute_entry` called on an existing
`(node,endpoint,cluster,attribute)` key returns true and leaves the row
(both `Type` and `Value`) untouched, and the value-update primitive
(`update_attribute`) writes only the `Value` column: every row keeps its
key and its `Type`, so a row's `Type` never changes once inserted. -/
theorem c6_type_immutable_and_create_idempotent :
    (∀ (dataModel : Option (String → String → String))
       (db : List Registry.AttrRow) (k : Registry.AttrKey),
      (Registry.findRow db k).isSome →
      Registry.create_attribute_entry dataModel db k = (db, true)) ∧
    (∀ (db : List Registry.AttrRow) (k : Registry.AttrKey) (v : String),
      (Registry.update_attribute_tx db k v).1.map (fun r => r.key) =
        db.map (fun r => r.key) ∧
      (Registry.update_attribute_tx db k v).1.map (fun r => r.ty) =
        db.map (fun r => r.ty)) := by
  constructor
  · intro dataModel db k h
    cases hfind : Registry.findRow db k with
    | none => rw [hfind] at h; cases h
    | some r => simp [Registry.create_attribute_entry, hfind]
  · intro db k v
    cases hfind : Registry.findRow db k with
    | none => simp [Registry.update_attribute_tx, hfind]
    | some r =>
        constructor <;>
        · simp only [Registry.update_attribute_tx, hfind, List.map_map]
          apply List.map_congr_left
          intro a _
          by_cases hk : a.key = k <;> simp [hk]

/-- Witness for C6 at a concrete Attribute table. -/
theorem c6_type_immutable_witness :
    (Registry.findRow
        [{ key := ⟨1, 1, "On/Off", "OnOff"⟩, ty := "boolean", value := some "true" }]
        ⟨1, 1, "On/Off", "OnOff"⟩).isSome ∧
    Registry.create_attribute_entry none
        [{ key := ⟨1, 1, "On/Off", "OnOff"⟩, ty := "boolean", value := some "true" }]
        ⟨1, 1, "On/Off", "OnOff"⟩ =
      ([{ key := ⟨1, 1, "On/Off", "OnOff"⟩, ty := "boolean", value := some "true" }], true) ∧
    (Registry.update_attribute_tx
        [{ key := ⟨1, 1, "On/Off", "OnOff"⟩, ty := "boolean", value := some "true" }]
        ⟨1, 1, "On/Off", "OnOff"⟩ "false").1.map (fun r => r.ty) =
      ([{ key := ⟨1, 1, "On/Off", "OnOff"⟩, ty := "boolean",
          value := some "true" }] : List Registry.AttrRow).map (fun r => r.ty) :=
  ⟨by decide,
   c6_type_immutable_and_create_idempotent.1 none _ _ (by decide),
   (c6_type_immutable_and_create_idempotent.2 _ ⟨1, 1, "On/Off", "OnOff"⟩ "false").2⟩

/-- Claim C10: when the row addressed by a value update does not exist,
`update_attribute` returns true and leaves the Attribute table completely
unchanged — no row is inserted and no existing row is modified. -/
theorem c10_update_missing_row_noop
    (db : List Registry.AttrRow) (k : Registry.AttrKey) (v : String)
    (h : Registry.findRow db k = none) :
    Registry.update_attribute_tx db k v = (db, true) := by
  simp [Registry.update_attribute_tx, h]

/-- Witness for C10 at a concrete Attribute table missing the addressed row. -/
theorem c10_update_missing_row_witness :
    Registry.findRow
        [{ key := ⟨1, 1, "On/Off", "OnOff"⟩, ty := "boolean", value := none }]
        ⟨2, 1, "On/Off", "OnOff"⟩ = none ∧
    Registry.update_attribute_tx
        [{ key := ⟨1, 1, "On/Off", "OnOff"⟩, ty := "boolean", value := none }]
        ⟨2, 1, "On/Off", "OnOff"⟩ "true" =
      ([{ key := ⟨1, 1, "On/Off", "OnOff"⟩, ty := "boolean", value := none }], true) :=
  ⟨by decide, c10_update_missing_row_noop _ _ "true" (by decide)⟩

/-! ### Attribute-name formatting (`polling_subscription_manager.py:412`,
`device_manager.py:341,378`)

Both the polling engine and the device manager turn a CamelCase attribute
name into the chip-tool command token with
`re.sub(r'(?<!^)(?<![A-Z])(?=[A-Z])', '-', name).lower()`:
a `-` is inserted at every position that is not the start of the string,
whose preceding character is not an upper-case letter, and whose current
character is an upper-case letter; then the whole string is lower-cased.
-/

namespace NameFormat

def isUpperAZ (c : Char) : Bool := 'A' ≤ c && c ≤ 'Z'

/-- Walk the characters after the first one, remembering the previous
character; this is the zero-width-match semantics of the regex above
(`(?<!^)` is handled by starting after the first character). -/
def kebabAux : Char → List Char → List Char
  | _, [] => []
  | prev, c :: rest =>
      if isUpperAZ c && !isUpperAZ prev then
        '-' :: c :: kebabAux c rest
      else
        c :: kebabAux c rest

/-- The formatter used by `poll_single_attribute` and
`write_device_attribute`: the regex substitution followed by `.lower()`. -/
def to_kebab_case (s : String) : String :=
  match s.data with
  | [] => ""
  | c :: rest => String.mk ((c :: kebabAux c rest).map Char.toLower)

/-- Modelled from the claim's words, for comparison: insert `-` before
every internal upper-case letter, then lower-case the whole string. -/
def kebabClaimAux : List Char → List Char
  | [] => []
  | c :: rest =>
      if isUpperAZ c then '-' :: c :: kebabClaimAux rest
      else c :: kebabClaimAux rest

def to_kebab_claimed (s : String) : String :=
  match s.data with
  | [] => ""
  | c :: rest => String.mk ((c :: kebabClaimAux rest).map Char.toLower)

/-- Modelled from the amended claim's words: pair every character from
position 1 on with its predecessor, and insert `-` exactly before the
upper-case characters whose predecessor is not upper-case. -/
def to_kebab_amended (s : String) : String :=
  match s.data with
  | [] => ""
  | c :: rest =>
      let tagged := List.zip rest (c :: rest)
      let body := tagged.flatMap (fun p =>
        if isUpperAZ p.1 && !isUpperAZ p.2 then ['-', p.1] else [p.1])
      String.mk ((c :: body).map Char.toLower)

theorem kebabAux_eq_zip (prev : Char) (rest : List Char) :
    kebabAux prev rest =
      (List.zip rest (prev :: rest)).flatMap (fun p =>
        if isUpperAZ p.1 && !isUpperAZ p.2 then ['-', p.1] else [p.1]) := by
  induction rest generalizing prev with
  | nil => rfl
  | cons c rest ih =>
      simp only [kebabAux, List.zip_cons_cons, List.flatMap_cons, ih c]
      by_cases h : isUpperAZ c && !isUpperAZ prev <;> simp [h]

end NameFormat

/-- Claim C8 counterexample: on `"UniqueID"` the formatter yields
`"unique-id"`, not the `"unique-i-d"` demanded by inserting a `-` before
every internal upper-case letter; the claim's description of the
formatter is therefore false. -/
theorem c8_uniqueid_counterexample :
    NameFormat.to_kebab_case "UniqueID" = "unique-id" ∧
    NameFormat.to_kebab_claimed "UniqueID" = "unique-i-d" ∧
    NameFormat.to_kebab_case "UniqueID" ≠ NameFormat.to_kebab_claimed "UniqueID" := by
  refine ⟨by decide, by decide, by decide⟩

/-- Claim C8 as amended: for every attribute name the formatter inserts a
`-` before exactly those internal upper-case letters whose preceding
character is not itself upper-case, and then lower-cases the whole
string. -/
theorem c8_kebab_case_characterization (s : String) :
    NameFormat.to_kebab_case s = NameFormat.to_kebab_amended s := by
  cases hs : s.data with
  | nil => simp [NameFormat.to_kebab_case, NameFormat.to_kebab_amended, hs]
  | cons c rest =>
      simp [NameFormat.to_kebab_case, NameFormat.to_kebab_amended, hs,
        NameFormat.kebabAux_eq_zip]

/-! ### Process Executor busy retry (`chip_tool_manager.py:387-432`)

`_execute_in_new_process` parses the first invocation's output into a
`ChipToolResponse`.  Busy detection reads `response.data['raw_output']`
(present only when no structured block parsed) and looks for the literal
`Resource is busy`.  On busy it retries up to `max_retries = 3` times,
sleeping `retry_delay` (starting at `0.05` s) before each retry and
doubling the delay after each retry that is still busy.  A non-busy retry
response replaces `response`; if every retry is still busy, `response` is
left as the *original* response (the `for ... else` branch only logs).
The environment `env : Nat → Resp` supplies what invocation `k` of the
subprocess produces (`0` is the initial run, `1..3` the retries); delays
are recorded in milliseconds.
-/

namespace Executor

def startsWithL : List Char → List Char → Bool
  | [], _ => true
  | _ :: _, [] => false
  | a :: tl, b :: bs => a == b && startsWithL tl bs

def containsL (needle : List Char) : List Char → Bool
  | [] => needle.isEmpty
  | c :: t => startsWithL needle (c :: t) || containsL needle t

/-- Python's `needle in hay` on strings. -/
def strContains (hay needle : String) : Bool := containsL needle.data hay.data

/-- The `data` field of a `ChipToolResponse`: either a shaped record
(the dict built by `_format_parsed_data`), the list of shaped records a
commissioning run returns, or the raw-output fallback dict
`{"raw_output": ..., "note": ...}`. -/
inductive RData
  | formatted (fields : List (String × String))
  | shapedList (items : List (List (String × String)))
  | raw (raw_output : String) (note : String)
deriving DecidableEq, Repr

structure Resp where
  status : String
  data : Option RData
deriving DecidableEq, Repr

/-- The busy test of `_execute_in_new_process`: `response.data` is a dict,
its `raw_output` entry is present and truthy, and it contains
`Resource is busy`. -/
def respIsBusy (r : Resp) : Bool :=
  match r.data with
  | some (.raw s _) => (s != "") && strContains s "Resource is busy"
  | _ => false

structure RetryOut where
  resp : Resp
  delaysMs : List Nat
deriving DecidableEq, Repr

/-- The retry `for` loop: `remaining` counts loop iterations left,
`k` is the invocation index of the next retry, `delay` the sleep (ms)
performed before it, `acc` the reversed list of sleeps done so far.
When the loop exhausts without a break, the original response `r0`
stands. -/
def busyRetryGo (env : Nat → Resp) (r0 : Resp) :
    Nat → Nat → Nat → List Nat → RetryOut
  | 0, _, _, acc => { resp := r0, delaysMs := acc.reverse }
  | remaining + 1, k, delay, acc =>
      let rk := env k
      if respIsBusy rk then
        busyRetryGo env r0 remaining (k + 1) (delay * 2) (delay :: acc)
      else
        { resp := rk, delaysMs := (delay :: acc).reverse }

/-- `_execute_in_new_process` after the first parse: retry on busy with
3 attempts and 50 ms initial back-off, otherwise return directly. -/
def execute_with_busy_retry (env : Nat → Resp) : RetryOut :=
  let r0 := env 0
  if respIsBusy r0 then busyRetryGo env r0 3 1 50 []
  else { resp := r0, delaysMs := [] }

/-- A concrete run in which the initial invocation and all three retries
report `Resource is busy`; the four responses are pairwise distinct
(their `note` fields differ). -/
def allBusyEnv : Nat → Resp := fun k =>
  { status := "success",
    data := some (.raw "Resource is busy" (Nat.repr k)) }

end Executor

/-- Claim C2 counterexample: with every invocation busy, the executor
performs the three retries with back-off 50/100/200 ms but returns the
*original* response `env 0`, which differs from the last retry response
`env 3`; the claim's "returns the last response" is false. -/
theorem c2_all_busy_returns_original_counterexample :
    Executor.execute_with_busy_retry Executor.allBusyEnv =
      { resp := Executor.allBusyEnv 0, delaysMs := [50, 100, 200] } ∧
    Executor.allBusyEnv 0 ≠ Executor.allBusyEnv 3 := by
  refine ⟨by decide, by decide⟩

/-- Claim C2 as amended: when the initial invocation's raw output reports
`Resource is busy`, the executor retries up to 3 times with exponential
back-off starting at 50 ms; a non-busy retry response is returned at once,
and if all retries still report busy the *original* (first) response is
returned. -/
theorem c2_busy_retry_backoff_and_original_response
    (env : Nat → Executor.Resp)
    (h0 : Executor.respIsBusy (env 0) = true) :
    (Executor.respIsBusy (env 1) = true →
     Executor.respIsBusy (env 2) = true →
     Executor.respIsBusy (env 3) = true →
     Executor.execute_with_busy_retry env =
       { resp := env 0, delaysMs := [50, 100, 200] }) ∧
    (Executor.respIsBusy (env 1) = false →
     Executor.execute_with_busy_retry env =
       { resp := env 1, delaysMs := [50] }) ∧
    (Executor.respIsBusy (env 1) = true →
     Executor.respIsBusy (env 2) = false →
     Executor.execute_with_busy_retry env =
       { resp := env 2, delaysMs := [50, 100] }) ∧
    (Executor.respIsBusy (env 1) = true →
     Executor.respIsBusy (env 2) = true →
     Executor.respIsBusy (env 3) = false →
     Executor.execute_with_busy_retry env =
       { resp := env 3, delaysMs := [50, 100, 200] }) := by
  refine ⟨?_, ?_, ?_, ?_⟩ <;>
    intros <;>
    simp_all [Executor.execute_with_busy_retry, Executor.busyRetryGo]

/-- Witness for C2 at the concrete all-busy environment. -/
theorem c2_busy_retry_witness :
    Executor.respIsBusy (Executor.allBusyEnv 0) = true ∧
    Executor.execute_with_busy_retry Executor.allBusyEnv =
      { resp := Executor.allBusyEnv 0, delaysMs := [50, 100, 200] } :=
  ⟨by decide,
   (c2_busy_retry_backoff_and_original_response Executor.allBusyEnv
     (by decide)).1 (by decide) (by decide) (by decide)⟩

/-! ### Commissioning success check (`chip_tool_manager.py:733-761`)

`commissioning` issues `pairing code <node_id> <code>` and scans the
shaped response list:

  for item in response.data:
      if item['node'] == node_id:
          if item['command_fields']['0x0'] == "0":
              return True
          continue
  return False

wrapped in `try ... except Exception: return False`.  A dict lookup on a
missing key (`item['node']`, `item['command_fields']`, `['0x0']`) raises
`KeyError`, aborting the whole scan.  Items are Python dicts whose keys
may be absent (`Option.none` here) and whose values are `None`, ints or
strings.
-/

namespace Commissioning

inductive PyVal
  | vnone
  | vint (n : Int)
  | vstr (s : String)
deriving DecidableEq, Repr

/-- Python `==` between a shaped value and the integer `node_id`. -/
def pyEqInt (v : PyVal) (n : Int) : Bool :=
  match v with
  | .vint m => m = n
  | _ => false

structure CmdItem where
  node : Option PyVal
  command_fields : Option (List (String × PyVal))
deriving DecidableEq, Repr

def assocFind : List (String × PyVal) → String → Option PyVal
  | [], _ => none
  | (k, v) :: rest, key => if k = key then some v else assocFind rest key

/-- The scan loop; `.error ()` is a raised `KeyError`. -/
def scanItems (nodeId : Int) : List CmdItem → Except Unit Bool
  | [] => .ok false
  | it :: rest =>
      match it.node with
      | none => .error ()
      | some nv =>
          if pyEqInt nv nodeId then
            match it.command_fields with
            | none => .error ()
            | some cf =>
                match assocFind cf "0x0" with
                | none => .error ()
                | some v =>
                    if v = .vstr "0" then .ok true
                    else scanItems nodeId rest
          else scanItems nodeId rest

/-- `commissioning`'s verdict: falsy data (absent or empty list) skips the
loop; a raised exception is caught and reported as failure. -/
def commissioning_success (data : Option (List CmdItem)) (nodeId : Int) : Bool :=
  match data with
  | none => false
  | some items =>
      if items.isEmpty then false
      else
        match scanItems nodeId items with
        | .ok b => b
        | .error _ => false

/-- The claim's success condition on a single item: `node == node_id` and
`command_fields["0x0"] == "0"` (the string `"0"`). -/
def goodItem (nodeId : Int) (it : CmdItem) : Bool :=
  (match it.node with
   | some nv => pyEqInt nv nodeId
   | none => false) &&
  (match it.command_fields with
   | some cf => assocFind cf "0x0" == some (.vstr "0")
   | none => false)

/-- An item the scan can step over without raising: it has a `node` key,
and when its node equals `node_id` it has a `command_fields` dict
containing the key `"0x0"`. -/
def safeItem (nodeId : Int) (it : CmdItem) : Bool :=
  match it.node with
  | none => false
  | some nv =>
      if pyEqInt nv nodeId then
        match it.command_fields with
        | none => false
        | some cf => (assocFind cf "0x0").isSome
      else true

/-- A shaped list containing first a malformed item (the `raw_data`
fallback shape, which has neither `node` nor `command_fields`) and then a
fully successful Commissioning-Complete item for node 5. -/
def malformedThenGood : List CmdItem :=
  [{ node := none, command_fields := none },
   { node := some (.vint 5), command_fields := some [("0x0", PyVal.vstr "0")] }]

theorem scanItems_spec (nodeId : Int) (items : List CmdItem) :
    scanItems nodeId items = .ok true ↔
      ∃ i, ∃ h : i < items.length,
        goodItem nodeId (items.get ⟨i, h⟩) = true ∧
        ∀ j (hj : j < i),
          safeItem nodeId (items.get ⟨j, Nat.lt_trans hj h⟩) = true := by
  induction items with
  | nil =>
      simp only [scanItems, List.length_nil]
      constructor
      · intro h; cases h
      · rintro ⟨i, hi, -⟩; cases hi
  | cons it rest ih =>
      constructor
      · intro h
        match hnode : it.node with
        | none => simp [scanItems, hnode] at h
        | some nv =>
            by_cases hn : pyEqInt nv nodeId
            · match hcf : it.command_fields with
              | none => simp [scanItems, hnode, hn, hcf] at h
              | some cf =>
                  match hfind : assocFind cf "0x0" with
                  | none => simp [scanItems, hnode, hn, hcf, hfind] at h
                  | some v =>
                      by_cases hv : v = .vstr "0"
                      · refine ⟨0, Nat.succ_pos _, ?_, ?_⟩
                        · simp [goodItem, hnode, hn, hcf, hfind, hv]
                        · intro j hj; cases hj
                      · rw [scanItems, hnode] at h
                        simp only [hn, if_true, hcf, hfind, hv, if_false] at h
                        rcases ih.mp h with ⟨i, hi, hgood, hsafe⟩
                        refine ⟨i + 1, Nat.succ_lt_succ hi, hgood, ?_⟩
                        intro j hj
                        cases j with
                        | zero => simp [safeItem, hnode, hn, hcf, hfind]
                        | succ j' => exact hsafe j' (Nat.lt_of_succ_lt_succ hj)
            · rw [scanItems, hnode] at h
              simp only [hn, if_false] at h
              rcases ih.mp h with ⟨i, hi, hgood, hsafe⟩
              refine ⟨i + 1, Nat.succ_lt_succ hi, hgood, ?_⟩
              intro j hj
              cases j with
              | zero => simp [safeItem, hnode, hn]
              | succ j' => exact hsafe j' (Nat.lt_of_succ_lt_succ hj)
      · rintro ⟨i, hi, hgood, hsafe⟩
        cases i with
        | zero =>
            simp only [List.get] at hgood
            match hnode : it.node with
            | none => simp [goodItem, hnode] at hgood
            | some nv =>
                match hcf : it.command_fields with
                | none => simp [goodItem, hnode, hcf] at hgood
                | some cf =>
                    simp only [goodItem, hnode, hcf, Bool.and_eq_true,
                      beq_iff_eq] at hgood
                    rw [scanItems, hnode]
                    simp [hgood.1, hcf, hgood.2]
        | succ i' =>
            have hsafe0 : safeItem nodeId it = true := hsafe 0 (Nat.succ_pos _)
            have hrest : scanItems nodeId rest = .ok true := by
              apply ih.mpr
              exact ⟨i', Nat.lt_of_succ_lt_succ hi, hgood,
                fun j hj => hsafe (j + 1) (Nat.succ_lt_succ hj)⟩
            match hnode : it.node with
            | none => simp [safeItem, hnode] at hsafe0
            | some nv =>
                by_cases hn : pyEqInt nv nodeId
                · match hcf : it.command_fields with
                  | none => simp [safeItem, hnode, hn, hcf] at hsafe0
                  | some cf =>
                      match hfind : assocFind cf "0x0" with
                      | none => simp [safeItem, hnode, hn, hcf, hfind] at hsafe0
                      | some v =>
                          rw [scanItems, hnode]
                          simp only [hn, if_true, hcf, hfind]
                          by_cases hv : v = .vstr "0"
                          · simp [hv]
                          · simp [hv, hrest]
                · rw [scanItems, hnode]
                  simp [hn, hrest]

end Commissioning

/-- Claim C4 counterexample: a shaped list whose first item is the
`raw_data` fallback (no `node` key) followed by a genuine success item
for the allocated node 5.  The list contains an item with `node == 5` and
`command_fields["0x0"] == "0"`, yet `commissioning` reports failure (the
`KeyError` on the malformed item aborts the scan), so the claimed
"if and only if" is false. -/
theorem c4_malformed_item_counterexample :
    Commissioning.commissioning_success (some Commissioning.malformedThenGood) 5 = false ∧
    (Commissioning.malformedThenGood.any (Commissioning.goodItem 5)) = true := by
  refine ⟨by decide, by decide⟩

/-- Claim C4 as amended: `commission` reports success iff some item of the
shaped list is a success marker (`node == node_id` and
`command_fields["0x0"] == "0"` as a string) *and* every item before it can
be stepped over without a `KeyError` (it has a `node` key, and when its
node equals `node_id` it has a `command_fields` dict with key `"0x0"`);
any malformed item encountered before the first success marker makes the
whole commissioning report failure. -/
theorem c4_commissioning_success_characterization
    (nodeId : Int) (items : List Commissioning.CmdItem) :
    Commissioning.commissioning_success (some items) nodeId = true ↔
      ∃ i, ∃ h : i < items.length,
        Commissioning.goodItem nodeId (items.get ⟨i, h⟩) = true ∧
        ∀ j (hj : j < i),
          Commissioning.safeItem nodeId (items.get ⟨j, Nat.lt_trans hj h⟩) = true := by
  rw [← Commissioning.scanItems_spec]
  cases items with
  | nil => simp [Commissioning.commissioning_success, Commissioning.scanItems]
  | cons it rest =>
      simp only [Commissioning.commissioning_success, List.isEmpty_cons,
        if_false, Bool.false_eq_true]
      cases hscan : Commissioning.scanItems nodeId (it :: rest) with
      | ok b => cases b <;> simp
      | error e => simp

/-! ### Polling Engine error handling
(`polling_subscription_manager.py:316-465`)

`poll_single_attribute` re-raises timeouts and unexpected exceptions
(lines 459-465) but returns normally on a non-success status or an
unextractable value (lines 429-437).  `_poll_device_attributes` loops
over the device's attributes and wraps each `poll_single_attribute` call
in `try ... except Exception: log` (lines 378-388) — the caught error is
*not* re-raised, so it never reaches `_device_polling_loop`'s handler
(lines 336-347) where `device_error_stop` would disable the device.
`Except Unit` marks every call site that can raise; the sweep's result
type records that the sweep itself cannot. -/

namespace Polling

/-- What one chip-tool read of a single attribute does, as seen by
`poll_single_attribute`. -/
inductive ReadOutcome
  | raises
  | statusFail
  | noValue
  | ok (v : String)
deriving DecidableEq, Repr

/-- One tracked attribute row of the device:
`(Cluster, Attribute, Value)` from the Attribute table. -/
structure TrackedAttr where
  cluster : String
  attrName : String
  cached : Option String
deriving DecidableEq, Repr

/-- `poll_single_attribute(node, ep, cluster, attr, current)`: `.error`
is a raised exception (timeout included); otherwise the new cached value
for the row is returned (unchanged on early returns). -/
def poll_single_attribute (current : Option String) (o : ReadOutcome) :
    Except Unit (Option String) :=
  match o with
  | .raises => .error ()
  | .statusFail => .ok current
  | .noValue => .ok current
  | .ok v => .ok (some v)

/-- The per-device polling state the engine owns: the loop flags, the
error counter, the tracked rows, and (for observation) the attribute
reads actually attempted in order. -/
structure DevSt where
  running : Bool
  paused : Bool
  enabled : Bool
  errorCount : Nat
  attrs : List TrackedAttr
  attempted : List String
deriving DecidableEq, Repr

def setCached (attrs : List TrackedAttr) (a : String) (v : Option String) :
    List TrackedAttr :=
  attrs.map (fun t => if t.attrName = a then { t with cached := v } else t)

/-- The inner `for attr in attributes:` loop of `_poll_device_attributes`:
break on stop/disable/pause, then
`try: poll_single_attribute(...) except Exception: log` and continue. -/
def sweepAttrs (outcomes : String → ReadOutcome) :
    List TrackedAttr → DevSt → DevSt
  | [], st => st
  | t :: rest, st =>
      if !st.running || !st.enabled then st
      else if st.paused then st
      else
        let st1 := { st with attempted := st.attempted ++ [t.attrName] }
        match poll_single_attribute t.cached (outcomes t.attrName) with
        | .ok newv =>
            sweepAttrs outcomes rest
              { st1 with attrs := setCached st1.attrs t.attrName newv }
        | .error _ => sweepAttrs outcomes rest st1

/-- `_poll_device_attributes`: early return when paused, otherwise the
sweep.  Its `Except` result type records that no statement in it raises —
the per-attribute `except` swallows every read error. -/
def poll_device_attributes (outcomes : String → ReadOutcome) (st : DevSt) :
    Except Unit DevSt :=
  if st.paused then .ok st
  else .ok (sweepAttrs outcomes st.attrs st)

/-- One iteration of the `while` body of `_device_polling_loop`; the
returned `Bool` is whether the loop continues.  The `.error` branch is
where `device_error_stop` disables the device (lines 339-347). -/
def device_loop_iter (errStop : Bool) (outcomes : String → ReadOutcome)
    (st : DevSt) : DevSt × Bool :=
  if !st.running || !st.enabled then (st, false)
  else if st.paused then (st, true)
  else
    match poll_device_attributes outcomes st with
    | .ok st2 => (st2, true)
    | .error _ =>
        let st2 := { st with errorCount := st.errorCount + 1 }
        if errStop then ({ st2 with enabled := false }, false)
        else (st2, true)

/-- A device with two tracked attributes where reading the first one
raises (a per-attribute command timeout) and the second succeeds. -/
def timeoutOutcomes : String → ReadOutcome := fun a =>
  if a = "OnOff" then .raises else .ok "0"

def c3Start : DevSt :=
  { running := true, paused := false, enabled := true, errorCount := 0,
    attrs := [{ cluster := "On/Off", attrName := "OnOff", cached := none },
              { cluster := "Identify", attrName := "IdentifyTime", cached := none }],
    attempted := [] }

end Polling

/-- Claim C3 evaluated at the failing input: with `device_error_stop = true`
and the first attribute's read raising a timeout, one loop iteration
leaves the device *enabled*, continues the loop, and still polls the
second attribute — the raised error was swallowed by the per-attribute
`except` in `_poll_device_attributes`, so `device_error_stop` never
engages and the claim's required disable does not happen. -/
theorem c3_attribute_error_does_not_disable_device :
    Polling.device_loop_iter true Polling.timeoutOutcomes Polling.c3Start =
      ({ running := true, paused := false, enabled := true, errorCount := 0,
         attrs := [{ cluster := "On/Off", attrName := "OnOff", cached := none },
                   { cluster := "Identify", attrName := "IdentifyTime",
                     cached := some "0" }],
         attempted := ["OnOff", "IdentifyTime"] }, true) := by
  decide

/-! ### Command Gateway route `POST /command` (`api_interface.py:161-221`)

The handler pauses polling, runs the chip-tool command inside an inner
`try`, and in the inner `finally` executes the On/Off special case before
calling `resume_polling_after_command`:

    finally:
        if self.polling_manager:
            if request.cluster == "On/Off" and request.command in ["on", "off", "toggle"]:
                current_value = await self.database.get_value_by_attribute(...)
                await self.polling_manager.poll_single_attribute(...)
            await self.polling_manager.resume_polling_after_command()

`self.database` is the `Database` of `database_manager.py`
(`APIInterface.__init__` takes `device_manager.database`, wired in
`matterverse_app.py`).  `gatewayDatabaseMethods` lists every method that
class defines; attribute lookup of a name outside it raises
`AttributeError`, which the outer `except Exception` turns into a resume
plus `HTTPException(500)`. -/

namespace Gateway

/-- The methods defined by class `Database` in `database_manager.py`. -/
def gatewayDatabaseMethods : List String :=
  ["__init__", "_initialize_tables", "get_connection", "get_all_devices",
   "_get_device_clusters", "_get_cluster_attributes", "_get_cluster_commands",
   "_parse_attribute_value", "get_all_attributes", "update_attribute",
   "get_device_by_topic_id", "get_devices_by_node_id",
   "get_device_by_node_id_endpoint", "get_endpoints_by_node_id",
   "get_clusters_by_node_id_endpoint",
   "get_attributenames_by_node_id_endpoint_cluster_name", "insert_unique_id",
   "get_new_node_id", "insert_device", "create_attribute_entry",
   "delete_device", "close"]

/-- What the handler did: how often it paused and resumed polling, how
many immediate single-attribute polls it triggered, and the HTTP status
the client sees (200 for the normal return, 500 for the
`HTTPException` raised by the outer `except`). -/
structure RouteOutcome where
  pauseCalls : Nat
  resumeCalls : Nat
  polls : Nat
  httpStatus : Nat
deriving DecidableEq, Repr

/-- The special-case guard of the inner `finally`. -/
def isOnOffSpecial (cluster cmd : String) : Bool :=
  cluster == "On/Off" && (cmd == "on" || cmd == "off" || cmd == "toggle")

/-- Control flow of the `execute_command` route for a request that
reaches the inner `finally` (the chip-tool call itself returned), with a
polling manager attached, as wired by `MatterverseApplication`. -/
def execute_command_route (cluster cmd : String) : RouteOutcome :=
  -- inner try body ran; inner finally:
  if isOnOffSpecial cluster cmd then
    if gatewayDatabaseMethods.contains "get_value_by_attribute" then
      -- the read-back and the immediate poll, then resume, normal return
      { pauseCalls := 1, resumeCalls := 1, polls := 1, httpStatus := 200 }
    else
      -- AttributeError: the prepared return value is discarded, the
      -- pending resume in the finally is never reached, and the outer
      -- except resumes polling and raises HTTPException(500)
      { pauseCalls := 1, resumeCalls := 1, polls := 0, httpStatus := 500 }
  else
    { pauseCalls := 1, resumeCalls := 1, polls := 0, httpStatus := 200 }

end Gateway

/-- Claim C5 evaluated at the failing input: `Database` defines no
`get_value_by_attribute`, so a `POST /command` with cluster `On/Off` and
command `toggle` raises `AttributeError` in the inner `finally`: zero
immediate polls of `(On/Off, OnOff)` are triggered and the request ends
in HTTP 500 instead of completing normally (polling is still resumed by
the outer handler).  A non-On/Off command completes normally for
comparison. -/
theorem c5_onoff_command_raises_and_skips_poll :
    Gateway.gatewayDatabaseMethods.contains "get_value_by_attribute" = false ∧
    Gateway.execute_command_route "On/Off" "toggle" =
      { pauseCalls := 1, resumeCalls := 1, polls := 0, httpStatus := 500 } ∧
    Gateway.execute_command_route "Identify" "identify" =
      { pauseCalls := 1, resumeCalls := 1, polls := 0, httpStatus := 200 } := by
  refine ⟨by decide, by decide, by decide⟩

/-! ### Block Extractor (`chip_tool_manager.py:129-167` and
`chip_tool_parser.py:139-168`)

Two copies of `extract_named_blocks` exist.  The one on the
`ChipToolParser` class in `chip_tool_manager.py` (used by the Process
Executor pipeline) guards the two raising operations: it checks
`if text_before:` and `if lines_before:` before taking
`splitlines()[-1]`, and `if stack:` before `stack.pop()`.  The
module-level copy in `chip_tool_parser.py` performs
`text[:i].strip().splitlines()[-1]` and `stack.pop()` unguarded; on a
stray `}` with no open brace, or a `{` with only whitespace before it,
those raise `IndexError`.  Both are embedded below over `List Char`;
`.error ()` marks a raised `IndexError`.  The key search models
`re.search(r'(\w+)\s*=\s*$', last_line)` and `text.rfind(key, 0, i)`;
when `rfind` finds nothing Python's `text[-1:i]` evaluates to the empty
string, never raising. -/

namespace BlockExtract

def openBrace : Char := '\x7b'
def closeBrace : Char := '\x7d'

def isPyWS (c : Char) : Bool :=
  c == ' ' || c == '\t' || c == '\n' || c == '\r' || c == '\x0b' || c == '\x0c'

/-- Python `str.strip()`. -/
def pyStrip (cs : List Char) : List Char :=
  ((cs.dropWhile isPyWS).reverse.dropWhile isPyWS).reverse

/-- `splitlines()[-1]` of a stripped (hence line-break-free at both ends)
text: the characters after the last line break. -/
def lastLine (cs : List Char) : List Char :=
  (cs.reverse.takeWhile
    (fun c => !(c == '\n' || c == '\r' || c == '\x0b' || c == '\x0c'))).reverse

def isWordChar (c : Char) : Bool := c.isAlphanum || c == '_'

/-- `re.search(r'(\w+)\s*=\s*$', line)`: reading the line backwards,
optional whitespace, `=`, optional whitespace, then a maximal nonempty
run of word characters, which is the captured group. -/
def keyBeforeEq (line : List Char) : Option (List Char) :=
  let r := line.reverse
  match r.dropWhile isPyWS with
  | '=' :: r2 =>
      let w := (r2.dropWhile isPyWS).takeWhile isWordChar
      if w.isEmpty then none else some w.reverse
  | _ => none

def occursAt (needle hay : List Char) (j : Nat) : Bool :=
  Executor.startsWithL needle (hay.drop j)

/-- `text.rfind(needle, 0, upTo)`: the highest start index of an
occurrence wholly inside `text[0:upTo]`, if any. -/
def rfindBefore (needle text : List Char) (upTo : Nat) : Option Nat :=
  (List.range upTo).foldl
    (fun acc j =>
      if j + needle.length ≤ upTo && occursAt needle text j then some j else acc)
    none

structure ExtractSt where
  depth : Nat
  recording : Bool
  current : List Char
  blocks : List (List Char)
deriving DecidableEq, Repr

/-- Shared handling of a depth-0 `{` whose stripped prefix is nonempty:
search the last logical line for `identifier =`; on a hit start recording
from `rfind`'s position (Python's `text[-1:i]`, the empty string, when
`rfind` misses); otherwise leave `current`/`recording` untouched. -/
def braceStart (text : List Char) (i : Nat) (s : List Char) (st : ExtractSt) :
    List Char × Bool :=
  match keyBeforeEq (lastLine s) with
  | some w =>
      match rfindBefore w text i with
      | some j => ((text.take i).drop j, true)
      | none => ([], true)
  | none => (st.current, st.recording)

/-- One character step of `ChipToolParser.extract_named_blocks`
(chip_tool_manager.py): all raising operations are guarded, so the step
is total.  The guarded `stack.pop()` is the truncated `depth - 1`. -/
def mgrStep (text : List Char) (i : Nat) (c : Char) (st : ExtractSt) :
    ExtractSt :=
  if c = openBrace then
    let sr :=
      if st.depth = 0 then
        let s := pyStrip (text.take i)
        if s.isEmpty then (st.current, st.recording) else braceStart text i s st
      else (st.current, st.recording)
    let cur := if sr.2 then sr.1 ++ [openBrace] else sr.1
    { st with depth := st.depth + 1, recording := sr.2, current := cur }
  else if c = closeBrace then
    let d := st.depth - 1
    let cur := if st.recording then st.current ++ [closeBrace] else st.current
    if d = 0 && st.recording then
      { depth := d, recording := false, current := [],
        blocks := st.blocks ++ [pyStrip cur] }
    else { st with depth := d, current := cur }
  else
    if st.recording then { st with current := st.current ++ [c] } else st

def mgrRun (text : List Char) : Nat → List Char → ExtractSt → ExtractSt
  | _, [], st => st
  | i, c :: rest, st => mgrRun text (i + 1) rest (mgrStep text i c st)

def extract_named_blocks_mgr (text : List Char) : List (List Char) :=
  (mgrRun text 0 text
    { depth := 0, recording := false, current := [], blocks := [] }).blocks

/-- One character step of the module-level `extract_named_blocks`
(chip_tool_parser.py): `splitlines()[-1]` on an all-whitespace prefix and
`stack.pop()` on an empty stack raise (`.error ()`). -/
def cpStep (text : List Char) (i : Nat) (c : Char) (st : ExtractSt) :
    Except Unit ExtractSt :=
  if c = openBrace then
    let srE : Except Unit (List Char × Bool) :=
      if st.depth = 0 then
        let s := pyStrip (text.take i)
        if s.isEmpty then .error () else .ok (braceStart text i s st)
      else .ok (st.current, st.recording)
    match srE with
    | .error e => .error e
    | .ok sr =>
        let cur := if sr.2 then sr.1 ++ [openBrace] else sr.1
        .ok { st with depth := st.depth + 1, recording := sr.2, current := cur }
  else if c = closeBrace then
    if st.depth = 0 then .error ()
    else
      let d := st.depth - 1
      let cur := if st.recording then st.current ++ [closeBrace] else st.current
      if d = 0 && st.recording then
        .ok { depth := d, recording := false, current := [],
              blocks := st.blocks ++ [pyStrip cur] }
      else .ok { st with depth := d, current := cur }
  else
    .ok (if st.recording then { st with current := st.current ++ [c] } else st)

def cpRun (text : List Char) : Nat → List Char → ExtractSt → Except Unit ExtractSt
  | _, [], st => .ok st
  | i, c :: rest, st =>
      match cpStep text i c st with
      | .error e => .error e
      | .ok st2 => cpRun text (i + 1) rest st2

def extract_named_blocks_cp (text : List Char) :
    Except Unit (List (List Char)) :=
  (cpRun text 0 text
    { depth := 0, recording := false, current := [], blocks := [] }).map
    (fun st => st.blocks)

end BlockExtract

/-- Claim C9 counterexample: on the input `"}"` the `chip_tool_parser.py`
copy of `extract_named_blocks` executes `stack.pop()` on an empty stack
and raises `IndexError` — the stray `}` is not ignored and the function
does not terminate normally, so the claim is false for this copy. -/
theorem c9_stray_brace_raises_counterexample :
    BlockExtract.extract_named_blocks_cp [BlockExtract.closeBrace] = .error () ∧
    BlockExtract.extract_named_blocks_cp (String.toList "  \x7b a = 1 \x7d") =
      .error () := by
  refine ⟨rfl, rfl⟩

/-- Claim C9 as amended: the `ChipToolParser.extract_named_blocks` copy in
`chip_tool_manager.py` (a total function in this embedding) ignores a
stray `}` seen while no block is open (the state is unchanged), starts no
block at a depth-0 `{` that is not preceded by an identifier followed by
`=`, and still extracts a well-formed named block; the unguarded copy in
`chip_tool_parser.py` raises `IndexError` on those inputs instead. -/
theorem c9_manager_extract_robust :
    (∀ (text : List Char) (i : Nat) (st : BlockExtract.ExtractSt),
      st.depth = 0 → st.recording = false →
      BlockExtract.mgrStep text i BlockExtract.closeBrace st = st) ∧
    (∀ (text : List Char) (i : Nat) (st : BlockExtract.ExtractSt),
      st.depth = 0 → st.recording = false →
      BlockExtract.keyBeforeEq
        (BlockExtract.lastLine (BlockExtract.pyStrip (text.take i))) = none →
      (BlockExtract.mgrStep text i BlockExtract.openBrace st).recording = false ∧
      (BlockExtract.mgrStep text i BlockExtract.openBrace st).blocks = st.blocks) ∧
    BlockExtract.extract_named_blocks_mgr (String.toList "\x7d a") = [] ∧
    BlockExtract.extract_named_blocks_mgr (String.toList "x \x7b y \x7d z") = [] ∧
    BlockExtract.extract_named_blocks_mgr (String.toList "Foo = \x7b a = 1 \x7d") =
      [String.toList "Foo = \x7b a = 1 \x7d"] := by
  refine ⟨?_, ?_, by decide, by decide, by decide⟩
  · intro text i st h0 hrec
    obtain ⟨d, rec, cur, blks⟩ := st
    simp only at h0 hrec
    subst h0; subst hrec
    rfl
  · intro text i st h0 hrec hkey
    obtain ⟨d, rec, cur, blks⟩ := st
    simp only at h0 hrec
    subst h0; subst hrec
    simp only [BlockExtract.mgrStep, if_pos rfl]
    by_cases hs : (BlockExtract.pyStrip (text.take i)).isEmpty
    · simp [hs]
    · simp [hs, BlockExtract.braceStart, hkey]

/-- Witness for the C9 amended theorem at a concrete step state. -/
theorem c9_manager_extract_witness :
    BlockExtract.mgrStep (String.toList "x") 1 BlockExtract.closeBrace
        { depth := 0, recording := false, current := [], blocks := [] } =
      { depth := 0, recording := false, current := [], blocks := [] } ∧
    (BlockExtract.mgrStep (String.toList "x") 1 BlockExtract.openBrace
        { depth := 0, recording := false, current := [], blocks := [] }).recording
      = false :=
  ⟨c9_manager_extract_robust.1 (String.toList "x") 1 _ rfl rfl,
   (c9_manager_extract_robust.2.1 (String.toList "x") 1
     { depth := 0, recording := false, current := [], blocks := [] }
     rfl rfl (by decide)).1⟩

/-! ### Pause/resume vs. polling reads (`api_interface.py:172-221`,
`polling_subscription_manager.py:102-128, 316-388, 407-465`)

The gateway task runs `pause_polling_for_command` (sets
`_paused_for_command`), executes the external chip-tool command, then
`resume_polling_after_command` (clears the flag).  A device polling task
checks the flag at its cooperation points (top of the outer loop, start
of `_poll_device_attributes`, and between attributes) and breaks when it
sees it set; between a successful check and the actual spawn of the
chip-tool read subprocess the task crosses several `await` points
(`asyncio.wait_for`, the executor semaphore,
`asyncio.create_subprocess_exec`), so the scheduler can interleave the
gateway there.  The model makes exactly that granularity explicit: one
polling task alternates atomic `check` (the flag test) and `issue`
(the subprocess spawn, logged as a `readEv`) steps; the gateway performs
`pause`, the command, and `resume` as separate atomic steps.  A schedule
is a list of booleans (`true` steps the polling task, `false` the
gateway); `readsBetween` counts read events after `pauseEv` and before
`resumeEv` in the event log. -/

namespace PauseModel

inductive Ev
  | pauseEv
  | resumeEv
  | readEv
deriving DecidableEq, Repr

inductive PollPc
  | check (k : Nat)
  | issue (k : Nat)
  | stopped
deriving DecidableEq, Repr

inductive GwPc
  | idle
  | cmdRun
  | beforeResume
  | finished
deriving DecidableEq, Repr

structure Sys where
  paused : Bool
  poll : PollPc
  gw : GwPc
  log : List Ev
  nAttrs : Nat
deriving DecidableEq, Repr

/-- One atomic step of the per-device polling task: a `check` observes
`_paused_for_command` (and the end of the attribute list) and either
breaks or commits to attribute `k`; an `issue` spawns the chip-tool read
subprocess for the attribute it committed to — the pause flag is *not*
re-examined there, matching the source, where no check sits between the
flag test and `execute_command`. -/
def pollStep (s : Sys) : Sys :=
  match s.poll with
  | .check k =>
      if s.paused then { s with poll := .stopped }
      else if k < s.nAttrs then { s with poll := .issue k }
      else { s with poll := .stopped }
  | .issue k => { s with poll := .check (k + 1), log := s.log ++ [.readEv] }
  | .stopped => s

/-- One atomic step of the gateway handling one `POST /command`:
pause (log `pauseEv`), run the external command, resume (log
`resumeEv`). -/
def gwStep (s : Sys) : Sys :=
  match s.gw with
  | .idle => { s with paused := true, gw := .cmdRun, log := s.log ++ [.pauseEv] }
  | .cmdRun => { s with gw := .beforeResume }
  | .beforeResume =>
      { s with paused := false, gw := .finished, log := s.log ++ [.resumeEv] }
  | .finished => s

def run (s : Sys) : List Bool → Sys
  | [] => s
  | b :: rest => run (if b then pollStep s else gwStep s) rest

def initSys (n : Nat) : Sys :=
  { paused := false, poll := .check 0, gw := .idle, log := [], nAttrs := n }

def countReads : List Ev → Nat
  | [] => 0
  | .readEv :: t => countReads t + 1
  | _ :: t => countReads t

/-- The log suffix after the first `pauseEv`. -/
def afterPause : List Ev → List Ev
  | [] => []
  | .pauseEv :: t => t
  | _ :: t => afterPause t

/-- The log segment before the first `resumeEv`. -/
def untilResume : List Ev → List Ev
  | [] => []
  | .resumeEv :: _ => []
  | e :: t => e :: untilResume t

/-- Chip-tool reads issued between the pause and the matching resume. -/
def readsBetween (l : List Ev) : Nat := countReads (untilResume (afterPause l))

theorem countReads_append (a b : List Ev) :
    countReads (a ++ b) = countReads a + countReads b := by
  induction a with
  | nil => simp [countReads]
  | cons e t ih =>
      cases e with
      | pauseEv => simpa [countReads] using ih
      | resumeEv => simpa [countReads] using ih
      | readEv => simp [countReads, ih]; omega

theorem afterPause_of_not_mem (l : List Ev) (h : Ev.pauseEv ∉ l) :
    afterPause l = [] := by
  induction l with
  | nil => rfl
  | cons e t ih =>
      cases e with
      | pauseEv => exact absurd (List.mem_cons_self _ _) h
      | resumeEv => exact ih (fun hm => h (List.mem_cons_of_mem _ hm))
      | readEv => exact ih (fun hm => h (List.mem_cons_of_mem _ hm))

theorem afterPause_append_cons (p w : List Ev) (h : Ev.pauseEv ∉ p) :
    afterPause (p ++ Ev.pauseEv :: w) = w := by
  induction p with
  | nil => rfl
  | cons e t ih =>
      cases e with
      | pauseEv => exact absurd (List.mem_cons_self _ _) h
      | resumeEv => exact ih (fun hm => h (List.mem_cons_of_mem _ hm))
      | readEv => exact ih (fun hm => h (List.mem_cons_of_mem _ hm))

theorem untilResume_of_not_mem (w : List Ev) (h : Ev.resumeEv ∉ w) :
    untilResume w = w := by
  induction w with
  | nil => rfl
  | cons e t ih =>
      cases e with
      | resumeEv => exact absurd (List.mem_cons_self _ _) h
      | pauseEv => simp [untilResume, ih (fun hm => h (List.mem_cons_of_mem _ hm))]
      | readEv => simp [untilResume, ih (fun hm => h (List.mem_cons_of_mem _ hm))]

theorem untilResume_append_cons (w t : List Ev) (h : Ev.resumeEv ∉ w) :
    untilResume (w ++ Ev.resumeEv :: t) = w := by
  induction w with
  | nil => rfl
  | cons e u ih =>
      cases e with
      | resumeEv => exact absurd (List.mem_cons_self _ _) h
      | pauseEv => simp [untilResume, ih (fun hm => h (List.mem_cons_of_mem _ hm))]
      | readEv => simp [untilResume, ih (fun hm => h (List.mem_cons_of_mem _ hm))]

/-- Reads a polling task may still issue without re-checking the flag:
one when it is already committed to an attribute, none otherwise. -/
def pendingReads : PollPc → Nat
  | .issue _ => 1
  | _ => 0

/-- The inductive invariant: before the pause no `pauseEv` is logged;
while the command window is open the log splits as `p ++ pauseEv :: w`
with the window `w` holding at most `1 - pending` reads; after the
resume the closed window `w` holds at most one read. -/
def Inv (s : Sys) : Prop :=
  match s.gw with
  | .idle => s.paused = false ∧ Ev.pauseEv ∉ s.log
  | .cmdRun =>
      s.paused = true ∧
      ∃ p w, Ev.pauseEv ∉ p ∧ Ev.resumeEv ∉ w ∧
        s.log = p ++ Ev.pauseEv :: w ∧
        countReads w + pendingReads s.poll ≤ 1
  | .beforeResume =>
      s.paused = true ∧
      ∃ p w, Ev.pauseEv ∉ p ∧ Ev.resumeEv ∉ w ∧
        s.log = p ++ Ev.pauseEv :: w ∧
        countReads w + pendingReads s.poll ≤ 1
  | .finished =>
      ∃ p w t, Ev.pauseEv ∉ p ∧ Ev.resumeEv ∉ w ∧
        s.log = p ++ Ev.pauseEv :: (w ++ Ev.resumeEv :: t) ∧
        countReads w ≤ 1

theorem inv_init (n : Nat) : Inv (initSys n) :=
  ⟨rfl, List.not_mem_nil _⟩

theorem inv_pollStep (s : Sys) (h : Inv s) : Inv (pollStep s) := by
  obtain ⟨pa, pl, gw, lg, n⟩ := s
  cases gw with
  | idle =>
      simp only [Inv] at h
      obtain ⟨hpa, hmem⟩ := h
      subst hpa
      cases pl with
      | check k =>
          by_cases hk : k < n
          · have hstep : pollStep ⟨false, .check k, .idle, lg, n⟩ =
                ⟨false, .issue k, .idle, lg, n⟩ := by simp [pollStep, hk]
            rw [hstep]
            exact ⟨rfl, hmem⟩
          · have hstep : pollStep ⟨false, .check k, .idle, lg, n⟩ =
                ⟨false, .stopped, .idle, lg, n⟩ := by simp [pollStep, hk]
            rw [hstep]
            exact ⟨rfl, hmem⟩
      | issue k =>
          have hstep : pollStep ⟨false, .issue k, .idle, lg, n⟩ =
              ⟨false, .check (k + 1), .idle, lg ++ [Ev.readEv], n⟩ := rfl
          rw [hstep]
          exact ⟨rfl, by simp [hmem]⟩
      | stopped => exact ⟨rfl, hmem⟩
  | cmdRun =>
      simp only [Inv] at h
      obtain ⟨hpa, p, w, hpm, hwm, hlog, hcount⟩ := h
      subst hpa
      cases pl with
      | check k =>
          have hstep : pollStep ⟨true, .check k, .cmdRun, lg, n⟩ =
              ⟨true, .stopped, .cmdRun, lg, n⟩ := rfl
          rw [hstep]
          exact ⟨rfl, p, w, hpm, hwm, hlog, by
            simp only [pendingReads] at hcount ⊢; omega⟩
      | issue k =>
          have hstep : pollStep ⟨true, .issue k, .cmdRun, lg, n⟩ =
              ⟨true, .check (k + 1), .cmdRun, lg ++ [Ev.readEv], n⟩ := rfl
          rw [hstep]
          refine ⟨rfl, p, w ++ [Ev.readEv], hpm, by simp [hwm], ?_, ?_⟩
          · rw [hlog]; simp
          · simp only [pendingReads] at hcount ⊢
            rw [countReads_append]
            simp only [countReads]
            omega
      | stopped =>
          show Inv (⟨true, .stopped, .cmdRun, lg, n⟩ : Sys)
          exact ⟨rfl, p, w, hpm, hwm, hlog, by
            simp only [pendingReads] at hcount ⊢; omega⟩
  | beforeResume =>
      simp only [Inv] at h
      obtain ⟨hpa, p, w, hpm, hwm, hlog, hcount⟩ := h
      subst hpa
      cases pl with
      | check k =>
          have hstep : pollStep ⟨true, .check k, .beforeResume, lg, n⟩ =
              ⟨true, .stopped, .beforeResume, lg, n⟩ := rfl
          rw [hstep]
          exact ⟨rfl, p, w, hpm, hwm, hlog, by
            simp only [pendingReads] at hcount ⊢; omega⟩
      | issue k =>
          have hstep : pollStep ⟨true, .issue k, .beforeResume, lg, n⟩ =
              ⟨true, .check (k + 1), .beforeResume, lg ++ [Ev.readEv], n⟩ := rfl
          rw [hstep]
          refine ⟨rfl, p, w ++ [Ev.readEv], hpm, by simp [hwm], ?_, ?_⟩
          · rw [hlog]; simp
          · simp only [pendingReads] at hcount ⊢
            rw [countReads_append]
            simp only [countReads]
            omega
      | stopped =>
          show Inv (⟨true, .stopped, .beforeResume, lg, n⟩ : Sys)
          exact ⟨rfl, p, w, hpm, hwm, hlog, by
            simp only [pendingReads] at hcount ⊢; omega⟩
  | finished =>
      simp only [Inv] at h
      obtain ⟨p, w, t, hpm, hwm, hlog, hcount⟩ := h
      cases pl with
      | check k =>
          cases pa with
          | true =>
              have hstep : pollStep ⟨true, .check k, .finished, lg, n⟩ =
                  ⟨true, .stopped, .finished, lg, n⟩ := rfl
              rw [hstep]
              exact ⟨p, w, t, hpm, hwm, hlog, hcount⟩
          | false =>
              by_cases hk : k < n
              · have hstep : pollStep ⟨false, .check k, .finished, lg, n⟩ =
                    ⟨false, .issue k, .finished, lg, n⟩ := by simp [pollStep, hk]
                rw [hstep]
                exact ⟨p, w, t, hpm, hwm, hlog, hcount⟩
              · have hstep : pollStep ⟨false, .check k, .finished, lg, n⟩ =
                    ⟨false, .stopped, .finished, lg, n⟩ := by simp [pollStep, hk]
                rw [hstep]
                exact ⟨p, w, t, hpm, hwm, hlog, hcount⟩
      | issue k =>
          have hstep : pollStep ⟨pa, .issue k, .finished, lg, n⟩ =
              ⟨pa, .check (k + 1), .finished, lg ++ [Ev.readEv], n⟩ := rfl
          rw [hstep]
          refine ⟨p, w, t ++ [Ev.readEv], hpm, hwm, ?_, hcount⟩
          rw [hlog]; simp
      | stopped => exact ⟨p, w, t, hpm, hwm, hlog, hcount⟩

theorem inv_gwStep (s : Sys) (h : Inv s) : Inv (gwStep s) := by
  obtain ⟨pa, pl, gw, lg, n⟩ := s
  cases gw with
  | idle =>
      simp only [Inv] at h
      obtain ⟨hpa, hmem⟩ := h
      subst hpa
      have hstep : gwStep ⟨false, pl, .idle, lg, n⟩ =
          ⟨true, pl, .cmdRun, lg ++ [Ev.pauseEv], n⟩ := rfl
      rw [hstep]
      refine ⟨rfl, lg, [], hmem, by simp, rfl, ?_⟩
      cases pl <;> simp [countReads, pendingReads]
  | cmdRun =>
      simp only [Inv] at h
      obtain ⟨hpa, p, w, hpm, hwm, hlog, hcount⟩ := h
      have hstep : gwStep ⟨pa, pl, .cmdRun, lg, n⟩ =
          ⟨pa, pl, .beforeResume, lg, n⟩ := rfl
      rw [hstep]
      exact ⟨hpa, p, w, hpm, hwm, hlog, hcount⟩
  | beforeResume =>
      simp only [Inv] at h
      obtain ⟨hpa, p, w, hpm, hwm, hlog, hcount⟩ := h
      have hstep : gwStep ⟨pa, pl, .beforeResume, lg, n⟩ =
          ⟨false, pl, .finished, lg ++ [Ev.resumeEv], n⟩ := rfl
      rw [hstep]
      refine ⟨p, w, [], hpm, hwm, ?_, by omega⟩
      rw [hlog]; simp
  | finished => exact h

theorem inv_run (s : Sys) (h : Inv s) (sched : List Bool) :
    Inv (run s sched) := by
  induction sched generalizing s with
  | nil => exact h
  | cons b rest ih =>
      cases b with
      | true => exact ih _ (inv_pollStep s h)
      | false => exact ih _ (inv_gwStep s h)

theorem inv_readsBetween (s : Sys) (h : Inv s) : readsBetween s.log ≤ 1 := by
  obtain ⟨pa, pl, gw, lg, n⟩ := s
  cases gw with
  | idle =>
      simp only [Inv] at h
      obtain ⟨hpa, hmem⟩ := h
      show countReads (untilResume (afterPause lg)) ≤ 1
      rw [afterPause_of_not_mem _ hmem]
      simp [untilResume, countReads]
  | cmdRun =>
      simp only [Inv] at h
      obtain ⟨hpa, p, w, hpm, hwm, hlog, hcount⟩ := h
      show countReads (untilResume (afterPause lg)) ≤ 1
      rw [hlog, afterPause_append_cons _ _ hpm, untilResume_of_not_mem _ hwm]
      omega
  | beforeResume =>
      simp only [Inv] at h
      obtain ⟨hpa, p, w, hpm, hwm, hlog, hcount⟩ := h
      show countReads (untilResume (afterPause lg)) ≤ 1
      rw [hlog, afterPause_append_cons _ _ hpm, untilResume_of_not_mem _ hwm]
      omega
  | finished =>
      simp only [Inv] at h
      obtain ⟨p, w, t, hpm, hwm, hlog, hcount⟩ := h
      show countReads (untilResume (afterPause lg)) ≤ 1
      rw [hlog, afterPause_append_cons _ _ hpm, untilResume_append_cons _ _ hwm]
      exact hcount

end PauseModel

/-- Claim C1 counterexample: a legal asyncio interleaving in which the
polling task passes its pause check, the gateway then pauses, and the
already-committed read subprocess is spawned inside the pause window:
the trace is `[pause, read, resume]` and one chip-tool read is issued
between `pause_polling_for_command` and `resume_polling_after_command`,
not zero as claimed. -/
theorem c1_read_between_pause_resume_counterexample :
    (PauseModel.run (PauseModel.initSys 1)
        [true, false, true, false, false]).log =
      [PauseModel.Ev.pauseEv, PauseModel.Ev.readEv, PauseModel.Ev.resumeEv] ∧
    PauseModel.readsBetween
      (PauseModel.run (PauseModel.initSys 1)
        [true, false, true, false, false]).log = 1 := by
  refine ⟨by decide, by decide⟩

/-- Claim C1 as amended: under every interleaving of one device polling
task with one gateway command cycle, at most one chip-tool read is issued
between `pause_polling_for_command` and `resume_polling_after_command` —
the single read the task had already committed to at a pause check that
ran before the pause; once a cooperation point observes the pause, no
further read is issued until the resume. -/
theorem c1_at_most_one_read_between_pause_resume
    (n : Nat) (sched : List Bool) :
    PauseModel.readsBetween
      (PauseModel.run (PauseModel.initSys n) sched).log ≤ 1 :=
  PauseModel.inv_readsBetween _
    (PauseModel.inv_run _ (PauseModel.inv_init n) sched)
